import Mathlib

/-!
# Query-engine scan adapters (`qe/qe.h`)

A shallow embedding of the two leaf adapters `TableScan` and `IndexScan`, of the
`AggregateResult` accumulator and of the destructors of the five non-leaf operators,
together with the properties the specification states about them.

The record manager, the index manager and the storage iterators are external
collaborators.  Every call the adapters issue to them is appended to a trace, and the
answers of the collaborators are given by an arbitrary oracle `Env` that may depend on
the whole trace so far.
-/

namespace QE

/-! ## Data model -/

/-- Return code of every fallible operation (`RC`, a C `int`); `0` is success. -/
abbrev RC := Int

/-- End-of-stream status, `#define QE_EOF (-1)`. -/
def QE_EOF : RC := -1

/-- Raw byte buffer behind a `void *`. -/
abbrev Bytes := List Nat

/-- Identity of one heap-allocated scan iterator (`new RM_ScanIterator()` or
`new RM_IndexScanIterator()`). -/
abbrev Handle := Nat

/-- Modelled from the spec: the declared type of an attribute (`AttrType` of the record
layer, whose header is not part of the sources): integer, real or variable-length text. -/
inductive AttrType where
  | TypeInt
  | TypeReal
  | TypeVarChar
  deriving DecidableEq, Repr

/-- Modelled from the spec: the column descriptor `Attribute` of the record layer:
name, declared type and nominal byte width. -/
structure Attribute where
  name : String
  type : AttrType
  length : Nat
  deriving DecidableEq, Repr

/-- Modelled from the spec: the comparator `CompOp` of the record layer: equal,
not-equal, less, less-or-equal, greater, greater-or-equal, or always true (`NO_OP`). -/
inductive CompOp where
  | EQ_OP
  | LT_OP
  | LE_OP
  | GT_OP
  | GE_OP
  | NE_OP
  | NO_OP
  deriving DecidableEq, Repr

/-- Modelled from the spec: the row id `RID` of the record layer (page and slot). -/
structure RID where
  pageNum : Nat
  slotNum : Nat
  deriving DecidableEq, Repr

/-- One call issued to an external collaborator, with the arguments as passed. -/
inductive Call where
  /-- The call `rm.getAttributes(tableName, attrs)`. -/
  | rmGetAttributes (tableName : String)
  /-- The call `rm.scan(tableName, conditionAttribute, compOp, value, attributeNames, *iter)`. -/
  | rmScan (tableName : String) (conditionAttribute : String) (compOp : CompOp)
      (value : Option Bytes) (attributeNames : List String) (iter : Handle)
  /-- The call `rm.indexScan(tableName, attrName, lowKey, highKey, lowInc, highInc, *iter)`. -/
  | rmIndexScan (tableName : String) (attributeName : String) (lowKey : Option Bytes)
      (highKey : Option Bytes) (lowKeyInclusive : Bool) (highKeyInclusive : Bool)
      (iter : Handle)
  /-- The call `rm.readTuple(tableName, rid, data)`. -/
  | rmReadTuple (tableName : String) (rid : RID)
  /-- The call `iter->getNextTuple(rid, data)` on a table-scan iterator. -/
  | scanGetNextTuple (iter : Handle)
  /-- The call `iter->getNextEntry(rid, key)` on an index-scan iterator. -/
  | ixGetNextEntry (iter : Handle)
  /-- The call `iter->close()`. -/
  | close (iter : Handle)
  /-- The statement `delete iter`. -/
  | deleteIter (iter : Handle)
  /-- The destructor of a scan iterator that an operator holds by value
  (`RM_ScanIterator rm_ite`), run when the operator is destroyed. -/
  | destroyIter (iter : Handle)
  deriving DecidableEq, Repr

/-- Answers of the external collaborators.  Each answer may depend on every call issued
so far (the trace), on the arguments, and on the previous contents of the buffers that
are passed by reference. -/
structure Env where
  /-- New contents of the output vector of `rm.getAttributes`. -/
  rmGetAttributes : List Call → String → List Attribute → List Attribute
  /-- Status, row id and tuple buffer after `RM_ScanIterator::getNextTuple`. -/
  scanGetNextTuple : List Call → Handle → RID → Bytes → RC × RID × Bytes
  /-- Status, row id and key buffer after `RM_IndexScanIterator::getNextEntry`. -/
  ixGetNextEntry : List Call → Handle → RID → Bytes → RC × RID × Bytes
  /-- Status and tuple buffer after `rm.readTuple`. -/
  rmReadTuple : List Call → String → RID → Bytes → RC × Bytes
  /-- Contents of a member `RID rid` that the constructor leaves uninitialised. -/
  uninitRID : RID
  /-- Contents of the member `char key[PAGE_SIZE]` that the constructor leaves
  uninitialised. -/
  uninitKey : Bytes

/-- The state outside the adapter: the calls issued so far, oldest first, and the
identity the next allocated iterator receives. -/
structure World where
  trace : List Call
  nextHandle : Handle
  deriving DecidableEq, Repr

/-- Append one call to the trace. -/
def World.log (w : World) (c : Call) : World :=
  { w with trace := w.trace ++ [c] }

/-- Allocate a fresh iterator (`new ...Iterator()`). -/
def World.alloc (w : World) : Handle × World :=
  (w.nextHandle, { w with nextHandle := w.nextHandle + 1 })

/-- The conversion `tableName.c_str()` followed by the construction of the `string`
argument: the characters up to the first NUL. -/
def c_str (s : String) : String :=
  String.mk (s.data.takeWhile (fun c => c != Char.ofNat 0))

/-- The call `v.clear()` on a `vector`. -/
def vecClear {α : Type} (_v : List α) : List α := []

/-- The assignment `v = src` between two `vector`s. -/
def vecAssign {α : Type} (_v : List α) (src : List α) : List α := src

/-- The vector a caller passes by reference to `getAttributes(vector<Attribute> &attrs)`:
a vector other than the adapter's member, with its contents before the call, or the
adapter's own public member `attrs`, which the parameter then names as well. -/
inductive OutVec where
  | other (contents : List Attribute)
  | member
  deriving DecidableEq, Repr

/-! ## TableScan -/

/-- The members of `TableScan` (the reference `rm` is the oracle `Env`). -/
structure TableScan where
  iter : Handle
  tableName : String
  attrs : List Attribute
  attrNames : List String
  rid : RID
  deriving DecidableEq, Repr

/-- The loop of the constructor,
`for(i = 0; i < attrs.size(); ++i) attrNames.push_back(attrs.at(i).name);`
started at index `i` with the names pushed so far. -/
def TableScan.pushNames (attrs : List Attribute) (i : Nat) (attrNames : List String) :
    List String :=
  if h : i < attrs.length then
    TableScan.pushNames attrs (i + 1) (attrNames ++ [(attrs.get ⟨i, h⟩).name])
  else attrNames
termination_by attrs.length - i

/-- The loop shared by both `getAttributes`,
`for(i = 0; i < attrs.size(); ++i) { tmp = tableName; tmp += "."; tmp += attrs.at(i).name;
attrs.at(i).name = tmp; }`, started at index `i`. -/
def qualifyFrom (tableName : String) (i : Nat) (attrs : List Attribute) : List Attribute :=
  if h : i < attrs.length then
    let tmp := tableName ++ "." ++ (attrs.get ⟨i, h⟩).name
    qualifyFrom tableName (i + 1) (attrs.set i { attrs.get ⟨i, h⟩ with name := tmp })
  else attrs
termination_by attrs.length - i
decreasing_by simp only [List.length_set]; omega

/-- The constructor `TableScan(rm, tableName, alias)`; the argument `alias` is
`aliasName`, with `none` for the null pointer. -/
def TableScan.new (env : Env) (w : World) (tableName : String)
    (aliasName : Option String) : TableScan × World :=
  let attrs := env.rmGetAttributes w.trace tableName []
  let w1 := w.log (Call.rmGetAttributes tableName)
  let attrNames := TableScan.pushNames attrs 0 []
  let (iter, w2) := w1.alloc
  let w3 := w2.log (Call.rmScan tableName "" CompOp.NO_OP none attrNames iter)
  let tableName1 := match aliasName with
    | some a => a
    | none => tableName
  ({ iter := iter, tableName := tableName1, attrs := attrs, attrNames := attrNames,
     rid := env.uninitRID }, w3)

/-- The method `TableScan::setIterator()`. -/
def TableScan.setIterator (self : TableScan) (w : World) : TableScan × World :=
  let w1 := w.log (Call.close self.iter)
  let w2 := w1.log (Call.deleteIter self.iter)
  let (iter, w3) := w2.alloc
  let w4 := w3.log
    (Call.rmScan self.tableName "" CompOp.NO_OP none self.attrNames iter)
  ({ self with iter := iter }, w4)

/-- The method `TableScan::getNextTuple(data)`: status, adapter, world and the caller's
buffer afterwards. -/
def TableScan.getNextTuple (env : Env) (self : TableScan) (w : World) (data : Bytes) :
    RC × TableScan × World × Bytes :=
  let r := env.scanGetNextTuple w.trace self.iter self.rid data
  (r.1, { self with rid := r.2.1 }, w.log (Call.scanGetNextTuple self.iter), r.2.2)

/-- The method `TableScan::getAttributes(attrs) const`: given the output vector, the
adapter afterwards and the contents of the output vector afterwards.  When the output
vector is the member `attrs` itself, `attrs.clear()`, `attrs = this->attrs` and the loop
all act on that one vector. -/
def TableScan.getAttributes (self : TableScan) (out : OutVec) :
    TableScan × List Attribute :=
  match out with
  | OutVec.other v =>
      let out1 := vecClear v
      let out2 := vecAssign out1 self.attrs
      (self, qualifyFrom self.tableName 0 out2)
  | OutVec.member =>
      let m1 := vecClear self.attrs
      let m2 := vecAssign m1 m1
      let m3 := qualifyFrom self.tableName 0 m2
      ({ self with attrs := m3 }, m3)

/-- The destructor `~TableScan()`. -/
def TableScan.destroy (self : TableScan) (w : World) : World :=
  w.log (Call.close self.iter)

/-- One use of a `TableScan` between its construction and its destruction. -/
inductive TableScan.Op where
  | setIterator
  | getNextTuple (data : Bytes)
  | getAttributes (out : OutVec)
  deriving DecidableEq, Repr

/-- Whether the use is a call of `setIterator`. -/
def TableScan.Op.isSetIterator : TableScan.Op → Bool
  | TableScan.Op.setIterator => true
  | _ => false

/-- Adapter and world after one use. -/
def TableScan.step (env : Env) (s : TableScan × World) : TableScan.Op → TableScan × World
  | TableScan.Op.setIterator => TableScan.setIterator s.1 s.2
  | TableScan.Op.getNextTuple data =>
      let r := TableScan.getNextTuple env s.1 s.2 data
      (r.2.1, r.2.2.1)
  | TableScan.Op.getAttributes out => ((TableScan.getAttributes s.1 out).1, s.2)

/-- Adapter and world after a sequence of uses, in order. -/
def TableScan.run (env : Env) (s : TableScan × World) (ops : List TableScan.Op) :
    TableScan × World :=
  ops.foldl (TableScan.step env) s

/-! ## IndexScan -/

/-- The members of `IndexScan` (the reference `rm` is the oracle `Env`). -/
structure IndexScan where
  iter : Handle
  tableName : String
  attrName : String
  attrs : List Attribute
  key : Bytes
  rid : RID
  deriving DecidableEq, Repr

/-- The constructor `IndexScan(rm, tableName, attrName, alias)`; the argument `alias` is
`aliasName`, with `none` for the null pointer. -/
def IndexScan.new (env : Env) (w : World) (tableName : String) (attrName : String)
    (aliasName : Option String) : IndexScan × World :=
  let attrs := env.rmGetAttributes w.trace tableName []
  let w1 := w.log (Call.rmGetAttributes tableName)
  let (iter, w2) := w1.alloc
  let w3 := w2.log (Call.rmIndexScan tableName attrName none none true true iter)
  let tableName1 := match aliasName with
    | some a => a
    | none => tableName
  ({ iter := iter, tableName := tableName1, attrName := attrName, attrs := attrs,
     key := env.uninitKey, rid := env.uninitRID }, w3)

/-- The method `IndexScan::setIterator(lowKey, highKey, lowKeyInclusive,
highKeyInclusive)`; a null key pointer is `none`. -/
def IndexScan.setIterator (self : IndexScan) (w : World) (lowKey : Option Bytes)
    (highKey : Option Bytes) (lowKeyInclusive : Bool) (highKeyInclusive : Bool) :
    IndexScan × World :=
  let w1 := w.log (Call.close self.iter)
  let w2 := w1.log (Call.deleteIter self.iter)
  let (iter, w3) := w2.alloc
  let w4 := w3.log
    (Call.rmIndexScan self.tableName self.attrName lowKey highKey lowKeyInclusive
      highKeyInclusive iter)
  ({ self with iter := iter }, w4)

/-- The method `IndexScan::getNextTuple(data)`: status, adapter, world and the caller's
buffer afterwards. -/
def IndexScan.getNextTuple (env : Env) (self : IndexScan) (w : World) (data : Bytes) :
    RC × IndexScan × World × Bytes :=
  let r := env.ixGetNextEntry w.trace self.iter self.rid self.key
  let rc := r.1
  let self1 := { self with rid := r.2.1, key := r.2.2 }
  let w1 := w.log (Call.ixGetNextEntry self.iter)
  if rc = 0 then
    let t := env.rmReadTuple w1.trace (c_str self1.tableName) self1.rid data
    (t.1, self1, w1.log (Call.rmReadTuple (c_str self1.tableName) self1.rid), t.2)
  else
    (rc, self1, w1, data)

/-- The method `IndexScan::getAttributes(attrs) const`: given the output vector, the
adapter afterwards and the contents of the output vector afterwards.  When the output
vector is the member `attrs` itself, `attrs.clear()`, `attrs = this->attrs` and the loop
all act on that one vector. -/
def IndexScan.getAttributes (self : IndexScan) (out : OutVec) :
    IndexScan × List Attribute :=
  match out with
  | OutVec.other v =>
      let out1 := vecClear v
      let out2 := vecAssign out1 self.attrs
      (self, qualifyFrom self.tableName 0 out2)
  | OutVec.member =>
      let m1 := vecClear self.attrs
      let m2 := vecAssign m1 m1
      let m3 := qualifyFrom self.tableName 0 m2
      ({ self with attrs := m3 }, m3)

/-- The destructor `~IndexScan()`. -/
def IndexScan.destroy (self : IndexScan) (w : World) : World :=
  w.log (Call.close self.iter)

/-- One use of an `IndexScan` between its construction and its destruction. -/
inductive IndexScan.Op where
  | setIterator (lowKey : Option Bytes) (highKey : Option Bytes) (lowKeyInclusive : Bool)
      (highKeyInclusive : Bool)
  | getNextTuple (data : Bytes)
  | getAttributes (out : OutVec)
  deriving DecidableEq, Repr

/-- Whether the use is a call of `setIterator`. -/
def IndexScan.Op.isSetIterator : IndexScan.Op → Bool
  | IndexScan.Op.setIterator _ _ _ _ => true
  | _ => false

/-- Adapter and world after one use. -/
def IndexScan.step (env : Env) (s : IndexScan × World) : IndexScan.Op → IndexScan × World
  | IndexScan.Op.setIterator lo hi li hiInc => IndexScan.setIterator s.1 s.2 lo hi li hiInc
  | IndexScan.Op.getNextTuple data =>
      let r := IndexScan.getNextTuple env s.1 s.2 data
      (r.2.1, r.2.2.1)
  | IndexScan.Op.getAttributes out => ((IndexScan.getAttributes s.1 out).1, s.2)

/-- Adapter and world after a sequence of uses, in order. -/
def IndexScan.run (env : Env) (s : IndexScan × World) (ops : List IndexScan.Op) :
    IndexScan × World :=
  ops.foldl (IndexScan.step env) s

/-! ## Scan handles in a trace -/

/-- The iterator a call opens a scan on, if it opens one. -/
def Call.opened : Call → Option Handle
  | Call.rmScan _ _ _ _ _ h => some h
  | Call.rmIndexScan _ _ _ _ _ _ h => some h
  | _ => none

/-- The open scan handles after one more call: a scan call opens the iterator passed to
it and `close` ends it; every other call, the destruction of an iterator included, is
not counted as closing a handle. -/
def openStep (s : List Handle) : Call → List Handle
  | Call.rmScan _ _ _ _ _ h => s ++ [h]
  | Call.rmIndexScan _ _ _ _ _ _ h => s ++ [h]
  | Call.close h => s.filter (fun x => x != h)
  | _ => s

/-- The scan handles that are open after the calls of a trace, none being open before. -/
def openAfter (t : List Call) : List Handle :=
  t.foldl openStep []

/-- The handles a trace opens, in order. -/
def openedHandles (t : List Call) : List Handle :=
  t.filterMap Call.opened

/-- How often a trace closes the handle `h`. -/
def closeCount (h : Handle) (t : List Call) : Nat :=
  t.count (Call.close h)

/-- The handle discipline of an adapter whose first iterator is `k` and that has
reopened its scan `m` times, over the calls `d` it has issued: it opened the handles
`k, ..., k + m`, only the newest is open, never more than one was open, and each older
one was closed once. -/
structure ScanInv (k : Nat) (m : Nat) (d : List Call) : Prop where
  opened : openedHandles d = List.range' k (m + 1)
  openNow : openAfter d = [k + m]
  atMostOne : ∀ j, (openAfter (d.take j)).length ≤ 1
  closed : ∀ h : Nat, closeCount h d = if k ≤ h ∧ h < k + m then 1 else 0

/-! ## AggregateResult -/

/-- A bit pattern of the C++ type `float` (IEEE-754 binary32): sign bit, biased exponent
and fraction field. -/
structure Float32 where
  sign : Bool
  exponent : Nat
  fraction : Nat
  deriving DecidableEq, Repr

/-- The pattern denotes a finite number: the exponent field is not all ones and the
fraction fits its 23 bits. -/
def Float32.isFinite (f : Float32) : Prop :=
  f.exponent < 255 ∧ f.fraction < 2 ^ 23

instance (f : Float32) : Decidable f.isFinite := by
  unfold Float32.isFinite
  exact inferInstance

/-- The magnitude of a finite pattern in units of `2^-149`: a subnormal has the value
of its fraction, a normal number has an implicit leading bit. -/
def Float32.units (f : Float32) : Nat :=
  if f.exponent = 0 then f.fraction else (2 ^ 23 + f.fraction) * 2 ^ (f.exponent - 1)

/-- The number a finite pattern denotes. -/
def Float32.toRat (f : Float32) : ℚ :=
  (if f.sign then -1 else 1) * (f.units : ℚ) / 2 ^ 149

/-- The comparison `a <= b` of two finite `float`s. -/
def Float32.le (a b : Float32) : Prop := a.toRat ≤ b.toRat

/-- The comparison `a >= b` of two finite `float`s. -/
def Float32.ge (a b : Float32) : Prop := b.toRat ≤ a.toRat

/-- The literal `0` converted to `float`. -/
def Float32.zero : Float32 := ⟨false, 0, 0⟩

/-- The `float` `-1`. -/
def Float32.negOne : Float32 := ⟨true, 127, 0⟩

/-- The constant `numeric_limits<float>::min()`: the smallest positive normal number,
`2^-126`. -/
def numeric_limits_float_min : Float32 := ⟨false, 1, 0⟩

/-- The constant `numeric_limits<float>::max()`: the largest finite number,
`(2 - 2^-23) * 2^127`. -/
def numeric_limits_float_max : Float32 := ⟨false, 254, 2 ^ 23 - 1⟩

/-- The members of `AggregateResult`. -/
structure AggregateResult where
  avg : Float32
  count : Float32
  max : Float32
  min : Float32
  sum : Float32
  deriving DecidableEq, Repr

/-- The constructor `AggregateResult()`. -/
def AggregateResult.new : AggregateResult :=
  { avg := Float32.zero
    count := Float32.zero
    max := numeric_limits_float_min
    min := numeric_limits_float_max
    sum := Float32.zero }

/-! ## Destructors of the non-leaf operators -/

/-- Identity of one iterator object. -/
abbrev ObjId := Nat

/-- The iterator objects that are alive, and the world. -/
structure Heap where
  live : List ObjId
  world : World
  deriving DecidableEq, Repr

/-- The end of the lifetime of a member of pointer type (`Iterator *`, `TableScan *`,
`IndexScan *`): nothing happens to the object it points to. -/
def destroyPointerMember (_p : ObjId) (h : Heap) : Heap := h

/-- The end of the lifetime of a member of type `RM_ScanIterator` held by value: its
destructor, which belongs to the record manager, runs. -/
def destroyScanIteratorMember (it : Handle) (h : Heap) : Heap :=
  { h with world := h.world.log (Call.destroyIter it) }

/-- The end of the lifetime of the object `self` itself, after its destructor body and
the destruction of its members. -/
def Heap.release (h : Heap) (self : ObjId) : Heap :=
  { h with live := h.live.filter (fun o => o != self) }

/-- The member of `Filter` that refers to another iterator; the other members
(`condition`, `leftIndex`, `rightIndex`, `attrs`, `end`) are values. -/
structure Filter where
  input : ObjId
  deriving DecidableEq, Repr

/-- The member of `Project` that refers to another iterator; the other members
(`attrs`, `attrIndexes`, `totalAttrsCount`, `end`, `buffer`) are values. -/
structure Project where
  input : ObjId
  deriving DecidableEq, Repr

/-- The members of `BNLJoin` that refer to other iterators; the other members are
values. -/
structure BNLJoin where
  leftIn : ObjId
  rightIn : ObjId
  deriving DecidableEq, Repr

/-- The members of `INLJoin` that refer to other iterators; the other members are
values. -/
structure INLJoin where
  leftIn : ObjId
  rightIn : ObjId
  deriving DecidableEq, Repr

/-- The members of `GHJoin` that refer to other iterators, and the scan iterator
`RM_ScanIterator rm_ite` it holds by value, whose class belongs to the record manager;
the other members are values of the language and its library. -/
structure GHJoin where
  leftIn : ObjId
  rightIn : ObjId
  rm_ite : Handle
  deriving DecidableEq, Repr

/-- The destructor `~Filter(){}` of the object `self`: the empty body, then the members. -/
def Filter.destroy (self : ObjId) (f : Filter) (h : Heap) : Heap :=
  let h1 := h
  let h2 := destroyPointerMember f.input h1
  h2.release self

/-- The destructor `~Project(){}` of the object `self`: the empty body, then the
members. -/
def Project.destroy (self : ObjId) (p : Project) (h : Heap) : Heap :=
  let h1 := h
  let h2 := destroyPointerMember p.input h1
  h2.release self

/-- The destructor `~BNLJoin(){}` of the object `self`: the empty body, then the
members. -/
def BNLJoin.destroy (self : ObjId) (j : BNLJoin) (h : Heap) : Heap :=
  let h1 := h
  let h2 := destroyPointerMember j.rightIn h1
  let h3 := destroyPointerMember j.leftIn h2
  h3.release self

/-- The destructor `~INLJoin() {}` of the object `self`: the empty body, then the
members. -/
def INLJoin.destroy (self : ObjId) (j : INLJoin) (h : Heap) : Heap :=
  let h1 := h
  let h2 := destroyPointerMember j.rightIn h1
  let h3 := destroyPointerMember j.leftIn h2
  h3.release self

/-- The destructor `~GHJoin(){}` of the object `self`: the empty body, then the
members, last declared first, so `rm_ite` before `rightIn` and `leftIn`. -/
def GHJoin.destroy (self : ObjId) (j : GHJoin) (h : Heap) : Heap :=
  let h1 := h
  let h2 := destroyScanIteratorMember j.rm_ite h1
  let h3 := destroyPointerMember j.rightIn h2
  let h4 := destroyPointerMember j.leftIn h3
  h4.release self

/-! ## Concrete collaborators used in the examples -/

/-- A record manager whose every table has the columns `A` and `B`, whose scans and
index scans always succeed and whose `readTuple` always succeeds. -/
def exampleEnv : Env where
  rmGetAttributes := fun _ _ _ =>
    [⟨"A", AttrType.TypeInt, 4⟩, ⟨"B", AttrType.TypeVarChar, 30⟩]
  scanGetNextTuple := fun _ _ _ _ => (0, ⟨1, 0⟩, [1, 0, 0, 0])
  ixGetNextEntry := fun _ _ _ _ => (0, ⟨1, 0⟩, [7, 0, 0, 0])
  rmReadTuple := fun _ _ _ _ => (0, [0, 7, 0, 0, 0, 1, 0, 0, 0, 120])
  uninitRID := ⟨0, 0⟩
  uninitKey := []

/-- The same record manager over an index whose scans are always at their end. -/
def exhaustedEnv : Env :=
  { exampleEnv with ixGetNextEntry := fun _ _ rid key => (QE_EOF, rid, key) }

/-- The world before any call. -/
def World.initial : World := ⟨[], 0⟩

/-! ## The two loops -/

theorem TableScan.pushNames_eq (attrs : List Attribute) (i : Nat) (acc : List String) :
    TableScan.pushNames attrs i acc = acc ++ (attrs.drop i).map Attribute.name := by
  generalize hn : attrs.length - i = n
  induction n generalizing i acc with
  | zero =>
    rw [TableScan.pushNames]
    have hle : attrs.length ≤ i := by omega
    simp [Nat.not_lt.mpr hle, List.drop_eq_nil_of_le hle]
  | succ n ih =>
    rw [TableScan.pushNames]
    have hlt : i < attrs.length := by omega
    rw [dif_pos hlt, ih (i + 1) _ (by omega)]
    rw [List.drop_eq_getElem_cons hlt]
    simp only [List.get_eq_getElem, List.map_cons, List.append_assoc, List.singleton_append]

theorem qualifyFrom_eq (q : String) (i : Nat) (attrs : List Attribute) :
    qualifyFrom q i attrs =
      attrs.take i ++ (attrs.drop i).map
        (fun a => { name := q ++ "." ++ a.name, type := a.type, length := a.length }) := by
  generalize hn : attrs.length - i = n
  induction n generalizing i attrs with
  | zero =>
    rw [qualifyFrom]
    have hle : attrs.length ≤ i := by omega
    simp [Nat.not_lt.mpr hle, List.drop_eq_nil_of_le hle, List.take_of_length_le hle]
  | succ n ih =>
    rw [qualifyFrom]
    have hlt : i < attrs.length := by omega
    rw [dif_pos hlt]
    simp only []
    rw [ih (i + 1) _ (by simp only [List.length_set]; omega)]
    rw [List.drop_set_of_lt _ _ (Nat.lt_succ_self i), List.take_succ, List.set_take,
      List.set_eq_of_length_le (by simp), List.getElem?_set_self hlt,
      List.drop_eq_getElem_cons hlt]
    simp only [List.get_eq_getElem, Option.toList_some, List.map_cons, List.append_assoc,
      List.singleton_append]

/-! ## Members that no use changes -/

theorem tableScan_step_members (env : Env) (s : TableScan × World) (op : TableScan.Op) :
    (TableScan.step env s op).1.tableName = s.1.tableName ∧
    (TableScan.step env s op).1.attrNames = s.1.attrNames := by
  cases op with
  | setIterator => simp [TableScan.step, TableScan.setIterator, World.alloc]
  | getNextTuple data => simp [TableScan.step, TableScan.getNextTuple]
  | getAttributes out => cases out <;> simp [TableScan.step, TableScan.getAttributes]

theorem tableScan_run_members (env : Env) (ops : List TableScan.Op) (s : TableScan × World) :
    (TableScan.run env s ops).1.tableName = s.1.tableName ∧
    (TableScan.run env s ops).1.attrNames = s.1.attrNames := by
  induction ops generalizing s with
  | nil => simp [TableScan.run]
  | cons op ops ih =>
    have h1 := tableScan_step_members env s op
    have h2 := ih (TableScan.step env s op)
    simp only [TableScan.run, List.foldl_cons] at h2 ⊢
    exact ⟨h2.1.trans h1.1, h2.2.trans h1.2⟩

theorem indexScan_step_members (env : Env) (s : IndexScan × World) (op : IndexScan.Op) :
    (IndexScan.step env s op).1.tableName = s.1.tableName ∧
    (IndexScan.step env s op).1.attrName = s.1.attrName := by
  cases op with
  | setIterator lo hi li hinc => simp [IndexScan.step, IndexScan.setIterator, World.alloc]
  | getNextTuple data =>
    simp only [IndexScan.step, IndexScan.getNextTuple]
    split <;> simp
  | getAttributes out => cases out <;> simp [IndexScan.step, IndexScan.getAttributes]

theorem indexScan_run_members (env : Env) (ops : List IndexScan.Op) (s : IndexScan × World) :
    (IndexScan.run env s ops).1.tableName = s.1.tableName ∧
    (IndexScan.run env s ops).1.attrName = s.1.attrName := by
  induction ops generalizing s with
  | nil => simp [IndexScan.run]
  | cons op ops ih =>
    have h1 := indexScan_step_members env s op
    have h2 := ih (IndexScan.step env s op)
    simp only [IndexScan.run, List.foldl_cons] at h2 ⊢
    exact ⟨h2.1.trans h1.1, h2.2.trans h1.2⟩

/-- A use other than `getAttributes` on the member `attrs` itself keeps the stored
schema. -/
theorem tableScan_step_attrs (env : Env) (s : TableScan × World) (op : TableScan.Op)
    (h : op ≠ TableScan.Op.getAttributes OutVec.member) :
    (TableScan.step env s op).1.attrs = s.1.attrs := by
  cases op with
  | setIterator => simp [TableScan.step, TableScan.setIterator, World.alloc]
  | getNextTuple data => simp [TableScan.step, TableScan.getNextTuple]
  | getAttributes out =>
    cases out with
    | other v => simp [TableScan.step, TableScan.getAttributes]
    | member => exact absurd rfl h

theorem tableScan_run_attrs (env : Env) (ops : List TableScan.Op) (s : TableScan × World)
    (h : TableScan.Op.getAttributes OutVec.member ∉ ops) :
    (TableScan.run env s ops).1.attrs = s.1.attrs := by
  induction ops generalizing s with
  | nil => simp [TableScan.run]
  | cons op ops ih =>
    rw [List.mem_cons, not_or] at h
    have h1 := tableScan_step_attrs env s op (fun e => h.1 e.symm)
    have h2 := ih (TableScan.step env s op) h.2
    simp only [TableScan.run, List.foldl_cons] at h2 ⊢
    exact h2.trans h1

theorem indexScan_step_attrs (env : Env) (s : IndexScan × World) (op : IndexScan.Op)
    (h : op ≠ IndexScan.Op.getAttributes OutVec.member) :
    (IndexScan.step env s op).1.attrs = s.1.attrs := by
  cases op with
  | setIterator lo hi li hinc => simp [IndexScan.step, IndexScan.setIterator, World.alloc]
  | getNextTuple data =>
    simp only [IndexScan.step, IndexScan.getNextTuple]
    split <;> simp
  | getAttributes out =>
    cases out with
    | other v => simp [IndexScan.step, IndexScan.getAttributes]
    | member => exact absurd rfl h

theorem indexScan_run_attrs (env : Env) (ops : List IndexScan.Op) (s : IndexScan × World)
    (h : IndexScan.Op.getAttributes OutVec.member ∉ ops) :
    (IndexScan.run env s ops).1.attrs = s.1.attrs := by
  induction ops generalizing s with
  | nil => simp [IndexScan.run]
  | cons op ops ih =>
    rw [List.mem_cons, not_or] at h
    have h1 := indexScan_step_attrs env s op (fun e => h.1 e.symm)
    have h2 := ih (IndexScan.step env s op) h.2
    simp only [IndexScan.run, List.foldl_cons] at h2 ⊢
    exact h2.trans h1

theorem tableScan_new_members (env : Env) (w : World) (tableName : String)
    (aliasName : Option String) :
    (TableScan.new env w tableName aliasName).1.tableName = aliasName.getD tableName ∧
    (TableScan.new env w tableName aliasName).1.attrs
      = env.rmGetAttributes w.trace tableName [] ∧
    (TableScan.new env w tableName aliasName).1.attrNames
      = (env.rmGetAttributes w.trace tableName []).map Attribute.name := by
  cases aliasName <;> simp [TableScan.new, World.alloc, TableScan.pushNames_eq]

theorem indexScan_new_members (env : Env) (w : World) (tableName attrName : String)
    (aliasName : Option String) :
    (IndexScan.new env w tableName attrName aliasName).1.tableName
      = aliasName.getD tableName ∧
    (IndexScan.new env w tableName attrName aliasName).1.attrs
      = env.rmGetAttributes w.trace tableName [] ∧
    (IndexScan.new env w tableName attrName aliasName).1.attrName = attrName := by
  cases aliasName <;> simp [IndexScan.new, World.alloc]

theorem tableScan_getAttributes_eq (self : TableScan) (v : List Attribute) :
    (TableScan.getAttributes self (OutVec.other v)).2 = self.attrs.map
      (fun a => { name := self.tableName ++ "." ++ a.name, type := a.type,
                  length := a.length }) := by
  simp [TableScan.getAttributes, vecAssign, qualifyFrom_eq]

theorem indexScan_getAttributes_eq (self : IndexScan) (v : List Attribute) :
    (IndexScan.getAttributes self (OutVec.other v)).2 = self.attrs.map
      (fun a => { name := self.tableName ++ "." ++ a.name, type := a.type,
                  length := a.length }) := by
  simp [IndexScan.getAttributes, vecAssign, qualifyFrom_eq]

/-- Called on its own member `attrs`, `getAttributes` of a `TableScan` empties the stored
schema and reports nothing. -/
theorem tableScan_getAttributes_member (self : TableScan) :
    TableScan.getAttributes self OutVec.member = ({ self with attrs := [] }, []) := by
  simp [TableScan.getAttributes, vecClear, vecAssign, qualifyFrom_eq]

/-- Called on its own member `attrs`, `getAttributes` of an `IndexScan` empties the stored
schema and reports nothing. -/
theorem indexScan_getAttributes_member (self : IndexScan) :
    IndexScan.getAttributes self OutVec.member = ({ self with attrs := [] }, []) := by
  simp [IndexScan.getAttributes, vecClear, vecAssign, qualifyFrom_eq]

/-! ## Reported schema -/

/-- C1, as stated, fails: on a freshly constructed `TableScan` and `IndexScan` of the
table `left`, whose schema has two columns, `getAttributes` called on the adapter's own
member `attrs` returns a list whose length is not that of the schema. -/
theorem getAttributes_on_member_returns_nothing :
    ¬ ((TableScan.getAttributes (TableScan.new exampleEnv World.initial "left" none).1
          OutVec.member).2.length
        = (exampleEnv.rmGetAttributes World.initial.trace "left" []).length) ∧
    ¬ ((IndexScan.getAttributes (IndexScan.new exampleEnv World.initial "left" "B" none).1
          OutVec.member).2.length
        = (exampleEnv.rmGetAttributes World.initial.trace "left" []).length) := by
  rw [tableScan_getAttributes_member, indexScan_getAttributes_member]
  simp [exampleEnv]

/-- C1, amended: for a `TableScan` and an `IndexScan` in any state reached after
construction by uses among which `getAttributes` was never called on the adapter's own
member `attrs`, `getAttributes` on a vector other than that member returns the schema
that `rm.getAttributes` gave at construction, entry by entry in the same order and with
the same number of entries, where each name is replaced by `Q.name` (`Q` the alias if
one was passed, the table name otherwise) and type and length are kept. -/
theorem getAttributes_qualifies_schema (env : Env) (w : World) (tableName attrName : String)
    (aliasName : Option String) (opsT : List TableScan.Op) (opsI : List IndexScan.Op)
    (v : List Attribute)
    (hT : TableScan.Op.getAttributes OutVec.member ∉ opsT)
    (hI : IndexScan.Op.getAttributes OutVec.member ∉ opsI) :
    ((TableScan.getAttributes
          (TableScan.run env (TableScan.new env w tableName aliasName) opsT).1
          (OutVec.other v)).2
        = (env.rmGetAttributes w.trace tableName []).map
            (fun a => { name := aliasName.getD tableName ++ "." ++ a.name, type := a.type,
                        length := a.length }) ∧
      (TableScan.getAttributes
          (TableScan.run env (TableScan.new env w tableName aliasName) opsT).1
          (OutVec.other v)).2.length
        = (env.rmGetAttributes w.trace tableName []).length) ∧
    ((IndexScan.getAttributes
          (IndexScan.run env (IndexScan.new env w tableName attrName aliasName) opsI).1
          (OutVec.other v)).2
        = (env.rmGetAttributes w.trace tableName []).map
            (fun a => { name := aliasName.getD tableName ++ "." ++ a.name, type := a.type,
                        length := a.length }) ∧
      (IndexScan.getAttributes
          (IndexScan.run env (IndexScan.new env w tableName attrName aliasName) opsI).1
          (OutVec.other v)).2.length
        = (env.rmGetAttributes w.trace tableName []).length) := by
  have hTm := tableScan_run_members env opsT (TableScan.new env w tableName aliasName)
  have hTa := tableScan_run_attrs env opsT (TableScan.new env w tableName aliasName) hT
  have hT0 := tableScan_new_members env w tableName aliasName
  have hIm := indexScan_run_members env opsI (IndexScan.new env w tableName attrName aliasName)
  have hIa := indexScan_run_attrs env opsI
    (IndexScan.new env w tableName attrName aliasName) hI
  have hI0 := indexScan_new_members env w tableName attrName aliasName
  have e1 := tableScan_getAttributes_eq
    (TableScan.run env (TableScan.new env w tableName aliasName) opsT).1 v
  rw [hTa, hTm.1, hT0.1, hT0.2.1] at e1
  have e2 := indexScan_getAttributes_eq
    (IndexScan.run env (IndexScan.new env w tableName attrName aliasName) opsI).1 v
  rw [hIa, hIm.1, hI0.1, hI0.2.1] at e2
  refine ⟨⟨e1, ?_⟩, ⟨e2, ?_⟩⟩
  · rw [e1, List.length_map]
  · rw [e2, List.length_map]

/-- Witness of C1: the table `left` opened under the alias `l`, rewound, asked for its
schema on a separate vector and pulled once; `getAttributes` on a vector that held
something else reports `l.A` and `l.B` with their types and lengths. -/
theorem getAttributes_qualifies_schema_witness :
    TableScan.Op.getAttributes OutVec.member ∉
      [TableScan.Op.setIterator, TableScan.Op.getAttributes (OutVec.other []),
        TableScan.Op.getNextTuple [0]] ∧
    IndexScan.Op.getAttributes OutVec.member ∉
      [IndexScan.Op.setIterator none (some [7, 0, 0, 0]) true false,
        IndexScan.Op.getNextTuple [0]] ∧
    (TableScan.getAttributes
        (TableScan.run exampleEnv (TableScan.new exampleEnv World.initial "left" (some "l"))
          [TableScan.Op.setIterator, TableScan.Op.getAttributes (OutVec.other []),
            TableScan.Op.getNextTuple [0]]).1
        (OutVec.other [⟨"x", AttrType.TypeReal, 4⟩])).2
      = [⟨"l.A", AttrType.TypeInt, 4⟩, ⟨"l.B", AttrType.TypeVarChar, 30⟩] ∧
    (IndexScan.getAttributes
        (IndexScan.run exampleEnv
          (IndexScan.new exampleEnv World.initial "left" "B" (some "l"))
          [IndexScan.Op.setIterator none (some [7, 0, 0, 0]) true false,
            IndexScan.Op.getNextTuple [0]]).1
        (OutVec.other [⟨"x", AttrType.TypeReal, 4⟩])).2
      = [⟨"l.A", AttrType.TypeInt, 4⟩, ⟨"l.B", AttrType.TypeVarChar, 30⟩] :=
  ⟨by decide, by decide,
   (getAttributes_qualifies_schema exampleEnv World.initial "left" "B" (some "l")
      [TableScan.Op.setIterator, TableScan.Op.getAttributes (OutVec.other []),
        TableScan.Op.getNextTuple [0]]
      [IndexScan.Op.setIterator none (some [7, 0, 0, 0]) true false,
        IndexScan.Op.getNextTuple [0]]
      [⟨"x", AttrType.TypeReal, 4⟩] (by decide) (by decide)).1.1,
   (getAttributes_qualifies_schema exampleEnv World.initial "left" "B" (some "l")
      [TableScan.Op.setIterator, TableScan.Op.getAttributes (OutVec.other []),
        TableScan.Op.getNextTuple [0]]
      [IndexScan.Op.setIterator none (some [7, 0, 0, 0]) true false,
        IndexScan.Op.getNextTuple [0]]
      [⟨"x", AttrType.TypeReal, 4⟩] (by decide) (by decide)).2.1⟩

theorem qualified_ne_twice_qualified (q n : String) :
    q ++ "." ++ n ≠ q ++ "." ++ (q ++ "." ++ n) := by
  intro h
  have hl := congrArg String.length h
  simp only [String.length_append] at hl
  have h1 : (".").length = 1 := by decide
  omega

/-- C9, as stated, fails: on a freshly constructed `TableScan` of the table `left`,
`getAttributes` called on the adapter's own member `attrs` does not leave the adapter as
it was (the stored schema is emptied), and its result is not the one a call on an empty
vector gives. -/
theorem getAttributes_on_member_changes_adapter :
    ¬ ((TableScan.getAttributes (TableScan.new exampleEnv World.initial "left" none).1
          OutVec.member).1
        = (TableScan.new exampleEnv World.initial "left" none).1) ∧
    ¬ ((TableScan.getAttributes (TableScan.new exampleEnv World.initial "left" none).1
          OutVec.member).2
        = (TableScan.getAttributes (TableScan.new exampleEnv World.initial "left" none).1
          (OutVec.other [])).2) := by
  rw [tableScan_getAttributes_member, tableScan_getAttributes_eq]
  constructor
  · intro h
    have ha := congrArg TableScan.attrs h
    simp [TableScan.new, World.alloc, exampleEnv] at ha
  · simp [TableScan.new, World.alloc, exampleEnv]

/-- C9, amended: `getAttributes` of a `TableScan` or `IndexScan`, called on a vector
other than the adapter's own member `attrs`, leaves the adapter, and with it the stored
unqualified schema, as it was; its result is the one it gives for an empty vector
whatever the vector held before; a second call on the result of the first gives the same
list again, whose names are the stored names qualified once and nowhere the stored name
qualified twice. -/
theorem getAttributes_pure_and_repeatable (ts : TableScan) (ix : IndexScan)
    (v : List Attribute) :
    ((TableScan.getAttributes ts (OutVec.other v)).1 = ts ∧
      (TableScan.getAttributes ts (OutVec.other v)).2
        = (TableScan.getAttributes ts (OutVec.other [])).2 ∧
      (TableScan.getAttributes (TableScan.getAttributes ts (OutVec.other v)).1
          (OutVec.other (TableScan.getAttributes ts (OutVec.other v)).2)).2
        = (TableScan.getAttributes ts (OutVec.other [])).2 ∧
      ((TableScan.getAttributes (TableScan.getAttributes ts (OutVec.other v)).1
          (OutVec.other (TableScan.getAttributes ts (OutVec.other v)).2)).2).map
            Attribute.name
        = ts.attrs.map (fun a => ts.tableName ++ "." ++ a.name) ∧
      List.Forall₂
        (fun (b a : Attribute) =>
          b.name ≠ ts.tableName ++ "." ++ (ts.tableName ++ "." ++ a.name))
        (TableScan.getAttributes (TableScan.getAttributes ts (OutVec.other v)).1
          (OutVec.other (TableScan.getAttributes ts (OutVec.other v)).2)).2 ts.attrs) ∧
    ((IndexScan.getAttributes ix (OutVec.other v)).1 = ix ∧
      (IndexScan.getAttributes ix (OutVec.other v)).2
        = (IndexScan.getAttributes ix (OutVec.other [])).2 ∧
      (IndexScan.getAttributes (IndexScan.getAttributes ix (OutVec.other v)).1
          (OutVec.other (IndexScan.getAttributes ix (OutVec.other v)).2)).2
        = (IndexScan.getAttributes ix (OutVec.other [])).2 ∧
      ((IndexScan.getAttributes (IndexScan.getAttributes ix (OutVec.other v)).1
          (OutVec.other (IndexScan.getAttributes ix (OutVec.other v)).2)).2).map
            Attribute.name
        = ix.attrs.map (fun a => ix.tableName ++ "." ++ a.name) ∧
      List.Forall₂
        (fun (b a : Attribute) =>
          b.name ≠ ix.tableName ++ "." ++ (ix.tableName ++ "." ++ a.name))
        (IndexScan.getAttributes (IndexScan.getAttributes ix (OutVec.other v)).1
          (OutVec.other (IndexScan.getAttributes ix (OutVec.other v)).2)).2 ix.attrs) := by
  have hT : (TableScan.getAttributes ts (OutVec.other v)).1 = ts := rfl
  have hI : (IndexScan.getAttributes ix (OutVec.other v)).1 = ix := rfl
  refine ⟨⟨hT, ?_, ?_, ?_, ?_⟩, ⟨hI, ?_, ?_, ?_, ?_⟩⟩
  · rw [tableScan_getAttributes_eq, tableScan_getAttributes_eq]
  · rw [hT, tableScan_getAttributes_eq, tableScan_getAttributes_eq]
  · rw [hT, tableScan_getAttributes_eq, List.map_map]
    rfl
  · rw [hT, tableScan_getAttributes_eq, List.forall₂_map_left_iff, List.forall₂_same]
    intro a _
    exact qualified_ne_twice_qualified _ _
  · rw [indexScan_getAttributes_eq, indexScan_getAttributes_eq]
  · rw [hI, indexScan_getAttributes_eq, indexScan_getAttributes_eq]
  · rw [hI, indexScan_getAttributes_eq, List.map_map]
    rfl
  · rw [hI, indexScan_getAttributes_eq, List.forall₂_map_left_iff, List.forall₂_same]
    intro a _
    exact qualified_ne_twice_qualified _ _

/-- C10, as stated, fails: a `TableScan` of the table `left` on which `getAttributes` was
once called on its own member `attrs` still holds the scanned names `A` and `B`, but
`getAttributes` on a separate vector no longer reports the qualified scanned names. -/
theorem getAttributes_after_member_call_loses_names :
    ¬ ((TableScan.getAttributes
          (TableScan.run exampleEnv (TableScan.new exampleEnv World.initial "left" none)
            [TableScan.Op.getAttributes OutVec.member]).1
          (OutVec.other [])).2.map Attribute.name
        = (TableScan.run exampleEnv (TableScan.new exampleEnv World.initial "left" none)
            [TableScan.Op.getAttributes OutVec.member]).1.attrNames.map
              (fun n => "left" ++ "." ++ n)) := by
  rw [tableScan_getAttributes_eq]
  simp [TableScan.run, TableScan.step, tableScan_getAttributes_member, TableScan.new,
    World.alloc, TableScan.pushNames_eq, exampleEnv]

/-- C10, amended: the constructor of `TableScan` calls `rm.scan` with the names of the
schema, in schema order and as many as the schema has, with an empty condition
attribute, `NO_OP` and no value; in every state reached afterwards the stored name list
is that list; and if `getAttributes` was never called on the adapter's own member
`attrs`, the names `getAttributes` reports on a vector other than that member are the
scanned names, each prefixed with the qualifier and a dot, in the same order. -/
theorem tableScan_scans_schema_names (env : Env) (w : World) (tableName : String)
    (aliasName : Option String) (ops : List TableScan.Op) (v : List Attribute) :
    (TableScan.new env w tableName aliasName).2.trace
      = w.trace ++ [Call.rmGetAttributes tableName,
          Call.rmScan tableName "" CompOp.NO_OP none
            ((env.rmGetAttributes w.trace tableName []).map Attribute.name)
            w.nextHandle] ∧
    ((env.rmGetAttributes w.trace tableName []).map Attribute.name).length
      = (env.rmGetAttributes w.trace tableName []).length ∧
    (TableScan.run env (TableScan.new env w tableName aliasName) ops).1.attrNames
      = (env.rmGetAttributes w.trace tableName []).map Attribute.name ∧
    (TableScan.Op.getAttributes OutVec.member ∉ ops →
      (TableScan.getAttributes
          (TableScan.run env (TableScan.new env w tableName aliasName) ops).1
          (OutVec.other v)).2.map Attribute.name
        = (TableScan.run env (TableScan.new env w tableName aliasName) ops).1.attrNames.map
            (fun n => aliasName.getD tableName ++ "." ++ n)) := by
  have hR := tableScan_run_members env ops (TableScan.new env w tableName aliasName)
  have h0 := tableScan_new_members env w tableName aliasName
  have hN := hR.2.trans h0.2.2
  refine ⟨?_, List.length_map _ _, hN, ?_⟩
  · simp [TableScan.new, World.alloc, World.log, TableScan.pushNames_eq]
  · intro h
    have hA := tableScan_run_attrs env ops (TableScan.new env w tableName aliasName) h
    rw [hN, tableScan_getAttributes_eq, hA, hR.1, h0.1, h0.2.1, List.map_map, List.map_map]
    rfl

/-- Witness of C10: the table `left` opened under the alias `l`, rewound and pulled once
without any call of `getAttributes` on the member; the names reported on a separate
vector are `l.A` and `l.B`, the scanned names `A` and `B` qualified. -/
theorem tableScan_scans_schema_names_witness :
    TableScan.Op.getAttributes OutVec.member ∉
      [TableScan.Op.setIterator, TableScan.Op.getNextTuple [0]] ∧
    (TableScan.run exampleEnv (TableScan.new exampleEnv World.initial "left" (some "l"))
        [TableScan.Op.setIterator, TableScan.Op.getNextTuple [0]]).1.attrNames
      = ["A", "B"] ∧
    (TableScan.getAttributes
        (TableScan.run exampleEnv (TableScan.new exampleEnv World.initial "left" (some "l"))
          [TableScan.Op.setIterator, TableScan.Op.getNextTuple [0]]).1
        (OutVec.other [])).2.map Attribute.name
      = (TableScan.run exampleEnv (TableScan.new exampleEnv World.initial "left" (some "l"))
          [TableScan.Op.setIterator, TableScan.Op.getNextTuple [0]]).1.attrNames.map
            (fun n => "l" ++ "." ++ n) :=
  ⟨by decide,
   (tableScan_scans_schema_names exampleEnv World.initial "left" (some "l")
      [TableScan.Op.setIterator, TableScan.Op.getNextTuple [0]] []).2.2.1,
   (tableScan_scans_schema_names exampleEnv World.initial "left" (some "l")
      [TableScan.Op.setIterator, TableScan.Op.getNextTuple [0]] []).2.2.2 (by decide)⟩

/-! ## Which relation the adapters address -/

/-- C2: on the table `left` opened under the alias `l`, the constructor scans the
relation `left`, and `setIterator` closes that scan and opens the new one on the
relation `l`. -/
theorem tableScan_setIterator_scans_alias :
    (TableScan.setIterator (TableScan.new exampleEnv World.initial "left" (some "l")).1
        (TableScan.new exampleEnv World.initial "left" (some "l")).2).2.trace
      = [Call.rmGetAttributes "left",
         Call.rmScan "left" "" CompOp.NO_OP none ["A", "B"] 0,
         Call.close 0,
         Call.deleteIter 0,
         Call.rmScan "l" "" CompOp.NO_OP none ["A", "B"] 1] := by
  simp [TableScan.setIterator, TableScan.new, World.alloc, World.log, World.initial,
    TableScan.pushNames_eq, exampleEnv]

/-- C8: on the table `left` with an index on `B` opened under the alias `l`, the
constructor opens its index scan on the relation `left`, while `getNextTuple` resolves
the row id with `readTuple` on the relation `l` and `setIterator` opens the new index
scan on the relation `l`. -/
theorem indexScan_alias_redirects_lookups :
    (IndexScan.getNextTuple exampleEnv
        (IndexScan.new exampleEnv World.initial "left" "B" (some "l")).1
        (IndexScan.new exampleEnv World.initial "left" "B" (some "l")).2 []).2.2.1.trace
      = [Call.rmGetAttributes "left",
         Call.rmIndexScan "left" "B" none none true true 0,
         Call.ixGetNextEntry 0,
         Call.rmReadTuple "l" ⟨1, 0⟩] ∧
    (IndexScan.setIterator (IndexScan.new exampleEnv World.initial "left" "B" (some "l")).1
        (IndexScan.new exampleEnv World.initial "left" "B" (some "l")).2
        (some [7, 0, 0, 0]) (some [7, 0, 0, 0]) true true).2.trace
      = [Call.rmGetAttributes "left",
         Call.rmIndexScan "left" "B" none none true true 0,
         Call.close 0,
         Call.deleteIter 0,
         Call.rmIndexScan "l" "B" (some [7, 0, 0, 0]) (some [7, 0, 0, 0]) true true 1] := by
  have hc : c_str "l" = "l" := by decide
  simp [IndexScan.getNextTuple, IndexScan.setIterator, IndexScan.new, World.alloc,
    World.log, World.initial, exampleEnv, hc]

/-! ## Status of an index lookup -/

/-- C3: let `e` be what the underlying `getNextEntry` answers.  If its status is not `0`
(as is `QE_EOF = -1`), `getNextTuple` returns that status, the caller's buffer is as it
was and the only call issued is `getNextEntry`, so `readTuple` is not called.  If its
status is `0`, `getNextTuple` returns the status of the one `readTuple` call it issues,
which is for the row id that `getNextEntry` produced. -/
theorem indexScan_getNextTuple_status (env : Env) (self : IndexScan) (w : World)
    (data : Bytes) :
    let e := env.ixGetNextEntry w.trace self.iter self.rid self.key
    let r := IndexScan.getNextTuple env self w data
    QE_EOF ≠ 0 ∧
    (e.1 ≠ 0 →
      r.1 = e.1 ∧ r.2.2.2 = data ∧
      r.2.2.1.trace = w.trace ++ [Call.ixGetNextEntry self.iter]) ∧
    (e.1 = 0 →
      r.1 = (env.rmReadTuple (w.trace ++ [Call.ixGetNextEntry self.iter])
              (c_str self.tableName) e.2.1 data).1 ∧
      r.2.2.1.trace = w.trace ++ [Call.ixGetNextEntry self.iter,
        Call.rmReadTuple (c_str self.tableName) e.2.1]) := by
  intro e r
  refine ⟨by decide, ?_, ?_⟩
  · intro h
    have hr : r = (e.1, { self with rid := e.2.1, key := e.2.2 },
        w.log (Call.ixGetNextEntry self.iter), data) := by
      simp only [r, IndexScan.getNextTuple]
      rw [if_neg h]
    rw [hr]
    simp [World.log]
  · intro h
    have hr : r = ((env.rmReadTuple (w.log (Call.ixGetNextEntry self.iter)).trace
          (c_str self.tableName) e.2.1 data).1,
        { self with rid := e.2.1, key := e.2.2 },
        (w.log (Call.ixGetNextEntry self.iter)).log
          (Call.rmReadTuple (c_str self.tableName) e.2.1),
        (env.rmReadTuple (w.log (Call.ixGetNextEntry self.iter)).trace
          (c_str self.tableName) e.2.1 data).2) := by
      simp only [r, IndexScan.getNextTuple]
      rw [if_pos h]
    rw [hr]
    simp [World.log]

/-- Witness of C3: at the end of the index the status is `QE_EOF`, the buffer `[9]` is
untouched and only `getNextEntry` was called; on a hit the status is the one of
`readTuple` and the row id passed on is the one the index produced. -/
theorem indexScan_getNextTuple_status_witness :
    ((IndexScan.getNextTuple exhaustedEnv
          (IndexScan.new exhaustedEnv World.initial "left" "B" none).1
          (IndexScan.new exhaustedEnv World.initial "left" "B" none).2 [9]).1 = -1 ∧
      (IndexScan.getNextTuple exhaustedEnv
          (IndexScan.new exhaustedEnv World.initial "left" "B" none).1
          (IndexScan.new exhaustedEnv World.initial "left" "B" none).2 [9]).2.2.2 = [9] ∧
      (IndexScan.getNextTuple exhaustedEnv
          (IndexScan.new exhaustedEnv World.initial "left" "B" none).1
          (IndexScan.new exhaustedEnv World.initial "left" "B" none).2 [9]).2.2.1.trace
        = (IndexScan.new exhaustedEnv World.initial "left" "B" none).2.trace
            ++ [Call.ixGetNextEntry 0]) ∧
    ((IndexScan.getNextTuple exampleEnv
          (IndexScan.new exampleEnv World.initial "left" "B" none).1
          (IndexScan.new exampleEnv World.initial "left" "B" none).2 [9]).1 = 0 ∧
      (IndexScan.getNextTuple exampleEnv
          (IndexScan.new exampleEnv World.initial "left" "B" none).1
          (IndexScan.new exampleEnv World.initial "left" "B" none).2 [9]).2.2.1.trace
        = (IndexScan.new exampleEnv World.initial "left" "B" none).2.trace
            ++ [Call.ixGetNextEntry 0, Call.rmReadTuple (c_str "left") ⟨1, 0⟩]) :=
  ⟨(indexScan_getNextTuple_status exhaustedEnv
      (IndexScan.new exhaustedEnv World.initial "left" "B" none).1
      (IndexScan.new exhaustedEnv World.initial "left" "B" none).2 [9]).2.1 (by decide),
   (indexScan_getNextTuple_status exampleEnv
      (IndexScan.new exampleEnv World.initial "left" "B" none).1
      (IndexScan.new exampleEnv World.initial "left" "B" none).2 [9]).2.2 (by decide)⟩

/-! ## Range of an index scan -/

/-- C5: the constructor of `IndexScan` opens its index scan on `attrName` with no low
key, no high key and both bounds inclusive; in every state reached afterwards,
`setIterator` closes the current iterator and opens a new index scan on the same
`attrName` with the four arguments it was given, each in its own position. -/
theorem indexScan_setIterator_passes_range (env : Env) (w : World)
    (tableName attrName : String) (aliasName : Option String) (ops : List IndexScan.Op)
    (lowKey highKey : Option Bytes) (lowKeyInclusive highKeyInclusive : Bool) :
    let s := IndexScan.run env (IndexScan.new env w tableName attrName aliasName) ops
    (IndexScan.new env w tableName attrName aliasName).2.trace
      = w.trace ++ [Call.rmGetAttributes tableName,
          Call.rmIndexScan tableName attrName none none true true w.nextHandle] ∧
    (IndexScan.setIterator s.1 s.2 lowKey highKey lowKeyInclusive highKeyInclusive).2.trace
      = s.2.trace ++ [Call.close s.1.iter, Call.deleteIter s.1.iter,
          Call.rmIndexScan s.1.tableName attrName lowKey highKey lowKeyInclusive
            highKeyInclusive s.2.nextHandle] ∧
    (IndexScan.setIterator s.1 s.2 lowKey highKey lowKeyInclusive highKeyInclusive).1.iter
      = s.2.nextHandle := by
  intro s
  have hR := indexScan_run_members env ops (IndexScan.new env w tableName attrName aliasName)
  have h0 := indexScan_new_members env w tableName attrName aliasName
  have hA : s.1.attrName = attrName := hR.2.trans h0.2.2
  refine ⟨?_, ?_, ?_⟩
  · simp [IndexScan.new, World.alloc, World.log]
  · simp [IndexScan.setIterator, World.alloc, World.log, hA]
  · simp [IndexScan.setIterator, World.alloc, World.log]

/-! ## Scan handles over the life of an adapter -/

theorem openAfter_snoc (d : List Call) (c : Call) :
    openAfter (d ++ [c]) = openStep (openAfter d) c := by
  simp [openAfter, List.foldl_append]

theorem openedHandles_snoc (d : List Call) (c : Call) :
    openedHandles (d ++ [c]) = openedHandles d ++ (Call.opened c).toList := by
  simp only [openedHandles, List.filterMap_append]
  cases h : Call.opened c <;> simp [List.filterMap_cons, h]

theorem closeCount_snoc (h : Handle) (d : List Call) (c : Call) :
    closeCount h (d ++ [c]) = closeCount h d + if c = Call.close h then 1 else 0 := by
  simp [closeCount, List.count_append, List.count_singleton]

theorem atMostOne_snoc (d : List Call) (c : Call)
    (hd : ∀ j, (openAfter (d.take j)).length ≤ 1)
    (hc : (openAfter (d ++ [c])).length ≤ 1) :
    ∀ j, (openAfter ((d ++ [c]).take j)).length ≤ 1 := by
  intro j
  by_cases hj : j ≤ d.length
  · rw [List.take_append_of_le_length hj]
    exact hd j
  · rw [List.take_of_length_le (by simp; omega)]
    exact hc

theorem openStep_opened (s : List Handle) (c : Call) (h : Handle)
    (hc : Call.opened c = some h) : openStep s c = s ++ [h] := by
  cases c <;> simp_all [Call.opened, openStep]

theorem ne_close_of_opened (c : Call) (h x : Nat) (hc : Call.opened c = some h) :
    c ≠ Call.close x := by
  cases c <;> simp_all [Call.opened]

/-- The constructor's calls establish the discipline: one call that opens nothing, then
the call that opens the first handle. -/
theorem ScanInv.init (k : Nat) (c0 c1 : Call) (h0 : Call.opened c0 = none)
    (hn : ∀ x, c0 ≠ Call.close x) (h1 : Call.opened c1 = some k) :
    ScanInv k 0 [c0, c1] := by
  have e0 : openStep [] c0 = [] := by
    cases c0 <;> simp_all [Call.opened, openStep]
  have a0 : openAfter [c0] = [] := by simp [openAfter, e0]
  have a1 : openAfter [c0, c1] = [k] := by
    have : [c0, c1] = [c0] ++ [c1] := rfl
    rw [this, openAfter_snoc, a0, openStep_opened _ _ _ h1]
    rfl
  refine ⟨?_, by simpa using a1, ?_, ?_⟩
  · simp [openedHandles, List.filterMap_cons, h0, h1]
  · have hs : ∀ j, (openAfter (([c0] ++ [c1]).take j)).length ≤ 1 := by
      apply atMostOne_snoc
      · intro j
        cases j with
        | zero => simp [openAfter]
        | succ j => simp [a0]
      · show (openAfter [c0, c1]).length ≤ 1
        simp [a1]
    exact hs
  · intro h
    have hne := ne_close_of_opened c1 k h h1
    have hk : ¬ (k ≤ h ∧ h < k + 0) := by omega
    rw [if_neg hk]
    simp [closeCount, List.count_cons, hn h, hne]

/-- A call that neither opens nor closes a handle keeps the discipline. -/
theorem ScanInv.neutral {k : Nat} {m : Nat} {d : List Call} (inv : ScanInv k m d)
    (c : Call) (h0 : Call.opened c = none) (hn : ∀ x, c ≠ Call.close x) :
    ScanInv k m (d ++ [c]) := by
  have e0 : ∀ s, openStep s c = s := by
    intro s
    cases c <;> simp_all [Call.opened, openStep]
  have a : openAfter (d ++ [c]) = [k + m] := by
    rw [openAfter_snoc, e0, inv.openNow]
  refine ⟨?_, a, ?_, ?_⟩
  · rw [openedHandles_snoc, h0, inv.opened]
    simp
  · exact atMostOne_snoc d c inv.atMostOne (by simp [a])
  · intro h
    rw [closeCount_snoc, inv.closed, if_neg (hn h)]
    simp

/-- Closing the current handle, deleting it and opening the next one keeps the
discipline, with one more reopening. -/
theorem ScanInv.reopen {k : Nat} {m : Nat} {d : List Call} (inv : ScanInv k m d)
    (c : Call) (h1 : Call.opened c = some (k + m + 1)) :
    ScanInv k (m + 1)
      (d ++ [Call.close (k + m)] ++ [Call.deleteIter (k + m)] ++ [c]) := by
  have a1 : openAfter (d ++ [Call.close (k + m)]) = [] := by
    rw [openAfter_snoc, inv.openNow]
    simp [openStep]
  have a2 : openAfter (d ++ [Call.close (k + m)] ++ [Call.deleteIter (k + m)]) = [] := by
    rw [openAfter_snoc, a1]
    rfl
  have a3 : openAfter (d ++ [Call.close (k + m)] ++ [Call.deleteIter (k + m)] ++ [c])
      = [k + (m + 1)] := by
    rw [openAfter_snoc, a2, openStep_opened _ _ _ h1]
    rfl
  refine ⟨?_, a3, ?_, ?_⟩
  · rw [openedHandles_snoc, openedHandles_snoc, openedHandles_snoc, h1, inv.opened,
      List.range'_1_concat k (m + 1)]
    simp [Call.opened, Nat.add_assoc]
  · apply atMostOne_snoc _ _ _ (by rw [a3]; simp)
    apply atMostOne_snoc _ _ _ (by rw [a2]; simp)
    exact atMostOne_snoc _ _ inv.atMostOne (by rw [a1]; simp)
  · intro h
    have hne := ne_close_of_opened c (k + m + 1) h h1
    rw [closeCount_snoc, closeCount_snoc, closeCount_snoc, inv.closed, if_neg hne]
    by_cases hh : h = k + m
    · subst hh
      simp
    · have h2 : ¬ (Call.close (k + m) = Call.close h) := by
        intro e
        injection e with e
        exact hh e.symm
      simp only [h2, if_false, Nat.add_zero, reduceCtorEq]
      by_cases hk : k ≤ h ∧ h < k + m
      · rw [if_pos hk, if_pos (by omega)]
      · rw [if_neg hk, if_neg (by omega)]

/-- The destructor's `close` ends the discipline with every handle closed once and none
open. -/
theorem ScanInv.finish {k : Nat} {m : Nat} {d : List Call} (inv : ScanInv k m d) :
    openedHandles (d ++ [Call.close (k + m)]) = List.range' k (m + 1) ∧
    (openedHandles (d ++ [Call.close (k + m)])).map
        (fun h => closeCount h (d ++ [Call.close (k + m)])) = List.replicate (m + 1) 1 ∧
    (∀ j, (openAfter ((d ++ [Call.close (k + m)]).take j)).length ≤ 1) ∧
    openAfter (d ++ [Call.close (k + m)]) = [] := by
  have a1 : openAfter (d ++ [Call.close (k + m)]) = [] := by
    rw [openAfter_snoc, inv.openNow]
    simp [openStep]
  have o1 : openedHandles (d ++ [Call.close (k + m)]) = List.range' k (m + 1) := by
    rw [openedHandles_snoc, inv.opened]
    simp [Call.opened]
  refine ⟨o1, ?_, atMostOne_snoc _ _ inv.atMostOne (by simp [a1]), a1⟩
  rw [o1, List.eq_replicate_iff]
  refine ⟨by simp, ?_⟩
  intro b hb
  rw [List.mem_map] at hb
  obtain ⟨h, hh, rfl⟩ := hb
  rw [List.mem_range'_1] at hh
  rw [closeCount_snoc, inv.closed]
  by_cases hk : (h : Nat) = k + m
  · subst hk
    simp
  · have h2 : ¬ (Call.close (k + m) = Call.close h) := by
      intro e
      injection e with e
      exact hk e.symm
    rw [if_neg h2, if_pos (by simp only [Handle] at *; omega)]

theorem tableScan_new_inv (env : Env) (w : World) (tableName : String)
    (aliasName : Option String) :
    ∃ d, (TableScan.new env w tableName aliasName).2.trace = w.trace ++ d ∧
      ScanInv w.nextHandle 0 d ∧
      (TableScan.new env w tableName aliasName).1.iter = w.nextHandle + 0 ∧
      (TableScan.new env w tableName aliasName).2.nextHandle = w.nextHandle + 0 + 1 := by
  refine ⟨[Call.rmGetAttributes tableName,
    Call.rmScan tableName "" CompOp.NO_OP none
      (TableScan.pushNames (env.rmGetAttributes w.trace tableName []) 0 []) w.nextHandle],
    ?_, ?_, ?_, ?_⟩
  · simp [TableScan.new, World.alloc, World.log]
  · exact ScanInv.init _ _ _ rfl (fun x => by simp) rfl
  · simp [TableScan.new, World.alloc, World.log]
  · simp [TableScan.new, World.alloc, World.log]

theorem tableScan_step_inv (env : Env) (pre : List Call) (k m : Nat) (d : List Call)
    (s : TableScan × World) (op : TableScan.Op) (ht : s.2.trace = pre ++ d)
    (inv : ScanInv k m d) (hi : s.1.iter = k + m) (hn : s.2.nextHandle = k + m + 1) :
    ∃ d', (TableScan.step env s op).2.trace = pre ++ d' ∧
      ScanInv k (m + if op.isSetIterator then 1 else 0) d' ∧
      (TableScan.step env s op).1.iter = k + (m + if op.isSetIterator then 1 else 0) ∧
      (TableScan.step env s op).2.nextHandle
        = k + (m + if op.isSetIterator then 1 else 0) + 1 := by
  cases op with
  | setIterator =>
    refine ⟨_, ?_, inv.reopen
      (Call.rmScan s.1.tableName "" CompOp.NO_OP none s.1.attrNames (k + m + 1)) rfl,
      ?_, ?_⟩
    · simp [TableScan.step, TableScan.setIterator, World.alloc, World.log, ht, hi, hn]
    · simp [TableScan.step, TableScan.setIterator, World.alloc, World.log, hn,
        TableScan.Op.isSetIterator, Nat.add_assoc]
    · simp [TableScan.step, TableScan.setIterator, World.alloc, World.log, hn,
        TableScan.Op.isSetIterator, Nat.add_assoc]
  | getNextTuple data =>
    refine ⟨_, ?_, inv.neutral (Call.scanGetNextTuple (k + m)) rfl (fun x => by simp),
      ?_, ?_⟩
    · simp [TableScan.step, TableScan.getNextTuple, World.log, ht, hi]
    · simp [TableScan.step, TableScan.getNextTuple, hi, TableScan.Op.isSetIterator]
    · simp [TableScan.step, TableScan.getNextTuple, World.log, hn,
        TableScan.Op.isSetIterator]
  | getAttributes out =>
    refine ⟨d, ?_, ?_, ?_, ?_⟩
    · simp [TableScan.step, ht]
    · simpa [TableScan.Op.isSetIterator] using inv
    · cases out <;> simp [TableScan.step, TableScan.getAttributes, hi,
        TableScan.Op.isSetIterator]
    · simp [TableScan.step, hn, TableScan.Op.isSetIterator]

theorem tableScan_run_inv (env : Env) (pre : List Call) (k : Nat) (ops : List TableScan.Op)
    (m : Nat) (d : List Call) (s : TableScan × World) (ht : s.2.trace = pre ++ d)
    (inv : ScanInv k m d) (hi : s.1.iter = k + m) (hn : s.2.nextHandle = k + m + 1) :
    ∃ d', (TableScan.run env s ops).2.trace = pre ++ d' ∧
      ScanInv k (m + ops.countP TableScan.Op.isSetIterator) d' ∧
      (TableScan.run env s ops).1.iter
        = k + (m + ops.countP TableScan.Op.isSetIterator) := by
  induction ops generalizing m d s with
  | nil => exact ⟨d, by simpa [TableScan.run] using ht, by simpa using inv,
      by simpa [TableScan.run] using hi⟩
  | cons op ops ih =>
    obtain ⟨d1, h1, inv1, hi1, hn1⟩ := tableScan_step_inv env pre k m d s op ht inv hi hn
    obtain ⟨d2, h2, inv2, hi2⟩ := ih _ d1 (TableScan.step env s op) h1 inv1 hi1 hn1
    have hc : m + (if op.isSetIterator then 1 else 0)
          + ops.countP TableScan.Op.isSetIterator
        = m + (op :: ops).countP TableScan.Op.isSetIterator := by
      rw [List.countP_cons]
      omega
    rw [hc] at inv2 hi2
    exact ⟨d2, by simpa [TableScan.run] using h2, inv2, by simpa [TableScan.run] using hi2⟩

theorem IndexScan.getNextTuple_hit (env : Env) (self : IndexScan) (w : World)
    (data : Bytes) (h0 : (env.ixGetNextEntry w.trace self.iter self.rid self.key).1 = 0) :
    IndexScan.getNextTuple env self w data =
      ((env.rmReadTuple (w.log (Call.ixGetNextEntry self.iter)).trace
          (c_str self.tableName)
          (env.ixGetNextEntry w.trace self.iter self.rid self.key).2.1 data).1,
        { self with
          rid := (env.ixGetNextEntry w.trace self.iter self.rid self.key).2.1,
          key := (env.ixGetNextEntry w.trace self.iter self.rid self.key).2.2 },
        (w.log (Call.ixGetNextEntry self.iter)).log
          (Call.rmReadTuple (c_str self.tableName)
            (env.ixGetNextEntry w.trace self.iter self.rid self.key).2.1),
        (env.rmReadTuple (w.log (Call.ixGetNextEntry self.iter)).trace
          (c_str self.tableName)
          (env.ixGetNextEntry w.trace self.iter self.rid self.key).2.1 data).2) := by
  simp only [IndexScan.getNextTuple]
  rw [if_pos h0]

theorem IndexScan.getNextTuple_miss (env : Env) (self : IndexScan) (w : World)
    (data : Bytes) (h0 : ¬ (env.ixGetNextEntry w.trace self.iter self.rid self.key).1 = 0) :
    IndexScan.getNextTuple env self w data =
      ((env.ixGetNextEntry w.trace self.iter self.rid self.key).1,
        { self with
          rid := (env.ixGetNextEntry w.trace self.iter self.rid self.key).2.1,
          key := (env.ixGetNextEntry w.trace self.iter self.rid self.key).2.2 },
        w.log (Call.ixGetNextEntry self.iter), data) := by
  simp only [IndexScan.getNextTuple]
  rw [if_neg h0]

theorem indexScan_new_inv (env : Env) (w : World) (tableName attrName : String)
    (aliasName : Option String) :
    ∃ d, (IndexScan.new env w tableName attrName aliasName).2.trace = w.trace ++ d ∧
      ScanInv w.nextHandle 0 d ∧
      (IndexScan.new env w tableName attrName aliasName).1.iter = w.nextHandle + 0 ∧
      (IndexScan.new env w tableName attrName aliasName).2.nextHandle
        = w.nextHandle + 0 + 1 := by
  refine ⟨[Call.rmGetAttributes tableName,
    Call.rmIndexScan tableName attrName none none true true w.nextHandle],
    ?_, ?_, ?_, ?_⟩
  · simp [IndexScan.new, World.alloc, World.log]
  · exact ScanInv.init _ _ _ rfl (fun x => by simp) rfl
  · simp [IndexScan.new, World.alloc, World.log]
  · simp [IndexScan.new, World.alloc, World.log]

theorem indexScan_step_inv (env : Env) (pre : List Call) (k m : Nat) (d : List Call)
    (s : IndexScan × World) (op : IndexScan.Op) (ht : s.2.trace = pre ++ d)
    (inv : ScanInv k m d) (hi : s.1.iter = k + m) (hn : s.2.nextHandle = k + m + 1) :
    ∃ d', (IndexScan.step env s op).2.trace = pre ++ d' ∧
      ScanInv k (m + if op.isSetIterator then 1 else 0) d' ∧
      (IndexScan.step env s op).1.iter = k + (m + if op.isSetIterator then 1 else 0) ∧
      (IndexScan.step env s op).2.nextHandle
        = k + (m + if op.isSetIterator then 1 else 0) + 1 := by
  cases op with
  | setIterator lo hi1 li hinc =>
    refine ⟨_, ?_, inv.reopen
      (Call.rmIndexScan s.1.tableName s.1.attrName lo hi1 li hinc (k + m + 1)) rfl,
      ?_, ?_⟩
    · simp [IndexScan.step, IndexScan.setIterator, World.alloc, World.log, ht, hi, hn]
    · simp [IndexScan.step, IndexScan.setIterator, World.alloc, World.log, hn,
        IndexScan.Op.isSetIterator, Nat.add_assoc]
    · simp [IndexScan.step, IndexScan.setIterator, World.alloc, World.log, hn,
        IndexScan.Op.isSetIterator, Nat.add_assoc]
  | getNextTuple data =>
    by_cases h0 : (env.ixGetNextEntry s.2.trace s.1.iter s.1.rid s.1.key).1 = 0
    · have inv1 := inv.neutral (Call.ixGetNextEntry (k + m)) rfl (fun x => by simp)
      have e := IndexScan.getNextTuple_hit env s.1 s.2 data h0
      refine ⟨_, ?_, inv1.neutral
        (Call.rmReadTuple (c_str s.1.tableName)
          (env.ixGetNextEntry s.2.trace s.1.iter s.1.rid s.1.key).2.1) rfl
        (fun x => by simp), ?_, ?_⟩
      · simp only [IndexScan.step, e, World.log, ht, hi, List.append_assoc]
      · simp [IndexScan.step, e, hi, IndexScan.Op.isSetIterator]
      · simp [IndexScan.step, e, World.log, hn, IndexScan.Op.isSetIterator]
    · have e := IndexScan.getNextTuple_miss env s.1 s.2 data h0
      refine ⟨_, ?_, inv.neutral (Call.ixGetNextEntry (k + m)) rfl (fun x => by simp),
        ?_, ?_⟩
      · simp only [IndexScan.step, e, World.log, ht, hi, List.append_assoc]
      · simp [IndexScan.step, e, hi, IndexScan.Op.isSetIterator]
      · simp [IndexScan.step, e, World.log, hn, IndexScan.Op.isSetIterator]
  | getAttributes out =>
    refine ⟨d, ?_, ?_, ?_, ?_⟩
    · simp [IndexScan.step, ht]
    · simpa [IndexScan.Op.isSetIterator] using inv
    · cases out <;> simp [IndexScan.step, IndexScan.getAttributes, hi,
        IndexScan.Op.isSetIterator]
    · simp [IndexScan.step, hn, IndexScan.Op.isSetIterator]

theorem indexScan_run_inv (env : Env) (pre : List Call) (k : Nat) (ops : List IndexScan.Op)
    (m : Nat) (d : List Call) (s : IndexScan × World) (ht : s.2.trace = pre ++ d)
    (inv : ScanInv k m d) (hi : s.1.iter = k + m) (hn : s.2.nextHandle = k + m + 1) :
    ∃ d', (IndexScan.run env s ops).2.trace = pre ++ d' ∧
      ScanInv k (m + ops.countP IndexScan.Op.isSetIterator) d' ∧
      (IndexScan.run env s ops).1.iter
        = k + (m + ops.countP IndexScan.Op.isSetIterator) := by
  induction ops generalizing m d s with
  | nil => exact ⟨d, by simpa [IndexScan.run] using ht, by simpa using inv,
      by simpa [IndexScan.run] using hi⟩
  | cons op ops ih =>
    obtain ⟨d1, h1, inv1, hi1, hn1⟩ := indexScan_step_inv env pre k m d s op ht inv hi hn
    obtain ⟨d2, h2, inv2, hi2⟩ := ih _ d1 (IndexScan.step env s op) h1 inv1 hi1 hn1
    have hc : m + (if op.isSetIterator then 1 else 0)
          + ops.countP IndexScan.Op.isSetIterator
        = m + (op :: ops).countP IndexScan.Op.isSetIterator := by
      rw [List.countP_cons]
      omega
    rw [hc] at inv2 hi2
    exact ⟨d2, by simpa [IndexScan.run] using h2, inv2, by simpa [IndexScan.run] using hi2⟩

/-- C6: take a `TableScan` and an `IndexScan`, each constructed, used in any way with
`n` calls of `setIterator` among the uses, and destroyed.  Among the calls the adapter
issued, the handles opened are the `n + 1` distinct handles `k, ..., k + n`, each of
them is closed exactly once, after every prefix of the calls at most one handle is
open, and after the destructor none is open. -/
theorem scan_handles_closed_exactly_once (env : Env) (w : World)
    (tableName attrName : String) (aliasName : Option String)
    (opsT : List TableScan.Op) (opsI : List IndexScan.Op) :
    let sT := TableScan.run env (TableScan.new env w tableName aliasName) opsT
    let tT := (TableScan.destroy sT.1 sT.2).trace.drop w.trace.length
    let nT := opsT.countP TableScan.Op.isSetIterator
    let sI := IndexScan.run env (IndexScan.new env w tableName attrName aliasName) opsI
    let tI := (IndexScan.destroy sI.1 sI.2).trace.drop w.trace.length
    let nI := opsI.countP IndexScan.Op.isSetIterator
    (openedHandles tT = List.range' w.nextHandle (nT + 1) ∧
      (openedHandles tT).map (fun h => closeCount h tT) = List.replicate (nT + 1) 1 ∧
      (∀ j, (openAfter (tT.take j)).length ≤ 1) ∧
      openAfter tT = []) ∧
    (openedHandles tI = List.range' w.nextHandle (nI + 1) ∧
      (openedHandles tI).map (fun h => closeCount h tI) = List.replicate (nI + 1) 1 ∧
      (∀ j, (openAfter (tI.take j)).length ≤ 1) ∧
      openAfter tI = []) := by
  intro sT tT nT sI tI nI
  constructor
  · obtain ⟨d0, h0, inv0, hi0, hn0⟩ := tableScan_new_inv env w tableName aliasName
    obtain ⟨d, hd, inv, hi⟩ := tableScan_run_inv env w.trace w.nextHandle opsT 0 d0
      (TableScan.new env w tableName aliasName) h0 inv0 hi0 hn0
    have ht : tT = d ++ [Call.close (w.nextHandle + (0 + nT))] := by
      show ((TableScan.destroy sT.1 sT.2).trace).drop w.trace.length = _
      simp only [TableScan.destroy, World.log]
      rw [show sT.2.trace = w.trace ++ d from hd, show sT.1.iter = _ from hi,
        List.append_assoc, List.drop_left]
    rw [ht]
    have hf := inv.finish
    simpa using hf
  · obtain ⟨d0, h0, inv0, hi0, hn0⟩ := indexScan_new_inv env w tableName attrName aliasName
    obtain ⟨d, hd, inv, hi⟩ := indexScan_run_inv env w.trace w.nextHandle opsI 0 d0
      (IndexScan.new env w tableName attrName aliasName) h0 inv0 hi0 hn0
    have ht : tI = d ++ [Call.close (w.nextHandle + (0 + nI))] := by
      show ((IndexScan.destroy sI.1 sI.2).trace).drop w.trace.length = _
      simp only [IndexScan.destroy, World.log]
      rw [show sI.2.trace = w.trace ++ d from hd, show sI.1.iter = _ from hi,
        List.append_assoc, List.drop_left]
    rw [ht]
    have hf := inv.finish
    simpa using hf

/-! ## Initial accumulator -/

theorem Float32.units_le_max (v : Float32) (hv : v.isFinite) :
    v.units ≤ numeric_limits_float_max.units := by
  obtain ⟨he, hf⟩ := hv
  have hmax : numeric_limits_float_max.units = (2 ^ 23 + (2 ^ 23 - 1)) * 2 ^ 253 := by
    simp [Float32.units, numeric_limits_float_max]
  rw [hmax]
  unfold Float32.units
  split
  · calc v.fraction ≤ (2 ^ 23 + (2 ^ 23 - 1)) * 1 := by omega
      _ ≤ (2 ^ 23 + (2 ^ 23 - 1)) * 2 ^ 253 :=
        Nat.mul_le_mul_left _ (Nat.one_le_two_pow)
  · apply Nat.mul_le_mul
    · omega
    · exact Nat.pow_le_pow_right (by decide) (by omega)

/-- Every finite `float` is at most the initial `min`. -/
theorem AggregateResult.le_initial_min (v : Float32) (hv : v.isFinite) :
    Float32.le v AggregateResult.new.min := by
  have hu := Float32.units_le_max v hv
  have hq : (v.units : ℚ) ≤ (numeric_limits_float_max.units : ℚ) := by exact_mod_cast hu
  have h0 : (0 : ℚ) ≤ (v.units : ℚ) := by exact_mod_cast Nat.zero_le _
  show v.toRat ≤ numeric_limits_float_max.toRat
  unfold Float32.toRat
  have hs : numeric_limits_float_max.sign = false := rfl
  rw [hs]
  apply div_le_div_of_nonneg_right _ (by positivity)
  cases v.sign <;> simp <;> linarith

/-- C4: for the finite values `0` and `-1`, `v <= min` holds on a freshly constructed
`AggregateResult` but `v >= max` does not: the initial `max` is the positive number
`2^-126`. -/
theorem aggregateResult_initial_max_is_positive :
    (Float32.zero.isFinite ∧ Float32.le Float32.zero AggregateResult.new.min ∧
      ¬ Float32.ge Float32.zero AggregateResult.new.max) ∧
    (Float32.negOne.isFinite ∧ Float32.le Float32.negOne AggregateResult.new.min ∧
      ¬ Float32.ge Float32.negOne AggregateResult.new.max) ∧
    AggregateResult.new.max.toRat = 1 / 2 ^ 126 ∧
    Float32.negOne.toRat = -1 := by
  have hmax : AggregateResult.new.max.toRat = 1 / 2 ^ 126 := by
    simp only [AggregateResult.new, numeric_limits_float_min, Float32.toRat, Float32.units]
    norm_num
  have hz : Float32.zero.toRat = 0 := by
    simp [Float32.zero, Float32.toRat, Float32.units]
  have hn : Float32.negOne.toRat = -1 := by
    simp only [Float32.negOne, Float32.toRat, Float32.units]
    norm_num
  refine ⟨⟨by decide, AggregateResult.le_initial_min _ (by decide), ?_⟩,
    ⟨by decide, AggregateResult.le_initial_min _ (by decide), ?_⟩, hmax, hn⟩
  · unfold Float32.ge
    rw [hmax, hz]
    norm_num
  · unfold Float32.ge
    rw [hmax, hn]
    norm_num

/-! ## Teardown of the non-leaf operators -/

/-- C7, as stated, fails: a `Filter` (object `1`) over a `TableScan` (object `0`) of the
table `left` is destroyed; afterwards it is not the case that the scan object is no
longer alive, and it is not the case that the handle it opened is no longer open. -/
theorem filter_destroy_leaves_child_open :
    ¬ (0 ∉ (Filter.destroy 1 { input := 0 }
            { live := [0, 1],
              world := (TableScan.new exampleEnv World.initial "left" none).2 }).live) ∧
    ¬ ((TableScan.new exampleEnv World.initial "left" none).1.iter ∉
          openAfter (Filter.destroy 1 { input := 0 }
            { live := [0, 1],
              world := (TableScan.new exampleEnv World.initial "left" none).2 }).world.trace) := by
  constructor
  · simp [Filter.destroy, destroyPointerMember, Heap.release]
  · simp [Filter.destroy, destroyPointerMember, Heap.release, TableScan.new, World.alloc,
      World.log, World.initial, openAfter, openStep]

/-- C7, amended: destroying a `Filter`, `Project`, `BNLJoin` or `INLJoin` issues no
call at all, and destroying a `GHJoin` issues the single call that destroys its own
by-value scan iterator `rm_ite`; so none of the five closes a handle, the handles open
afterwards other than `rm_ite` are those open before, and only the operator object
itself ends its life: any other object, a child included, is alive afterwards exactly
if it was alive before. -/
theorem operator_destroy_releases_only_itself (self o : ObjId) (x : Handle) (f : Filter)
    (p : Project) (b : BNLJoin) (i : INLJoin) (g : GHJoin) (h : Heap) :
    ((Filter.destroy self f h).world = h.world ∧
      (o ∈ (Filter.destroy self f h).live ↔ o ∈ h.live ∧ o ≠ self)) ∧
    ((Project.destroy self p h).world = h.world ∧
      (o ∈ (Project.destroy self p h).live ↔ o ∈ h.live ∧ o ≠ self)) ∧
    ((BNLJoin.destroy self b h).world = h.world ∧
      (o ∈ (BNLJoin.destroy self b h).live ↔ o ∈ h.live ∧ o ≠ self)) ∧
    ((INLJoin.destroy self i h).world = h.world ∧
      (o ∈ (INLJoin.destroy self i h).live ↔ o ∈ h.live ∧ o ≠ self)) ∧
    ((GHJoin.destroy self g h).world.trace
        = h.world.trace ++ [Call.destroyIter g.rm_ite] ∧
      (GHJoin.destroy self g h).world.nextHandle = h.world.nextHandle ∧
      closeCount x (GHJoin.destroy self g h).world.trace = closeCount x h.world.trace ∧
      (openAfter (GHJoin.destroy self g h).world.trace).filter (fun y => y != g.rm_ite)
        = (openAfter h.world.trace).filter (fun y => y != g.rm_ite) ∧
      (o ∈ (GHJoin.destroy self g h).live ↔ o ∈ h.live ∧ o ≠ self)) := by
  have hg : (GHJoin.destroy self g h).world.trace
      = h.world.trace ++ [Call.destroyIter g.rm_ite] := by
    simp [GHJoin.destroy, destroyPointerMember, destroyScanIteratorMember, Heap.release,
      World.log]
  refine ⟨?_, ?_, ?_, ?_, hg, ?_, ?_, ?_, ?_⟩
  · simp [Filter.destroy, destroyPointerMember, Heap.release]
  · simp [Project.destroy, destroyPointerMember, Heap.release]
  · simp [BNLJoin.destroy, destroyPointerMember, Heap.release]
  · simp [INLJoin.destroy, destroyPointerMember, Heap.release]
  · simp [GHJoin.destroy, destroyPointerMember, destroyScanIteratorMember, Heap.release,
      World.log]
  · rw [hg, closeCount_snoc]
    simp
  · rw [hg, openAfter_snoc]
    rfl
  · simp [GHJoin.destroy, destroyPointerMember, destroyScanIteratorMember, Heap.release]

end QE
